import Mathlib

/-!
Shallow embedding of tuicam's frame-to-glyph rendering engine and capture
pipeline (src/handler.rs, src/app.rs), with proofs of the specified
properties.  Machine integers (u8, u16, u32, i32, usize) are modelled as
Nat / Int; wherever a narrowing cast or wrap-around matters it is written
explicitly (`% 256`, `usizeCast`).
-/

namespace Tuicam

/-- One pixel color, three channels, modelling `[u8; 3]` from src/handler.rs
(channel values are below 256 for real pixels). -/
structure Color where
  c0 : Nat
  c1 : Nat
  c2 : Nat
deriving DecidableEq

/-- Absolute difference on Nat, modelling `u8::abs_diff`. -/
def absDiff (a b : Nat) : Nat := max a b - min a b

/-- Squared color distance: `color_dist` in src/handler.rs.  The u32
arithmetic cannot overflow (at most 3 * 255^2), so plain Nat is exact. -/
def color_dist (lhs rhs : Color) : Nat :=
  absDiff lhs.c0 rhs.c0 * absDiff lhs.c0 rhs.c0 +
  absDiff lhs.c1 rhs.c1 * absDiff lhs.c1 rhs.c1 +
  absDiff lhs.c2 rhs.c2 * absDiff lhs.c2 rhs.c2

/-- Channel-wise average: `color_average` in src/handler.rs (const-generic
over the list length there).  The final `as u8` narrowing is the `% 256`;
it is the identity whenever every input channel is < 256. -/
def color_average (colors : List Color) : Color :=
  ⟨((colors.map Color.c0).sum / colors.length) % 256,
   ((colors.map Color.c1).sum / colors.length) % 256,
   ((colors.map Color.c2).sum / colors.length) % 256⟩

/-- One entry of the fixed pair list in `convert_frame_into_ascii`
(ColorfulHalfBlock branch): the two foreground indices and the two
remaining indices. -/
structure PairChoice where
  fg1 : Nat
  fg2 : Nat
  other1 : Nat
  other2 : Nat
deriving DecidableEq

/-- The fixed six-entry pair list of src/handler.rs lines 191-198, in
source order. -/
def pairList : List PairChoice :=
  [⟨0, 1, 2, 3⟩, ⟨0, 2, 1, 3⟩, ⟨0, 3, 1, 2⟩, ⟨1, 2, 0, 3⟩, ⟨1, 3, 0, 2⟩, ⟨2, 3, 0, 1⟩]

/-- Rust `Iterator::min_by_key`: left fold keeping the current element on a
tie (the FIRST minimum wins), starting from the first list element. -/
def minByKey {α : Type} (key : α → Nat) (acc : α) : List α → α
  | [] => acc
  | x :: xs => minByKey key (if key x < key acc then x else acc) xs

/-- Sub-pixel colors of one 2x2 block, indexed 0..3 as in the source
(0 top-left, 1 top-right, 2 bottom-left, 3 bottom-right). -/
def mkSubpixels (a b c d : Color) : Nat → Color
  | 0 => a
  | 1 => b
  | 2 => c
  | _ => d

/-- The `min_by_key` selection over the fixed pair list (src/handler.rs
lines 191-201): the pair of sub-pixel indices at minimum `color_dist`,
first minimum winning. -/
def choosePair (sp : Nat → Color) : PairChoice :=
  minByKey (fun p => color_dist (sp p.fg1) (sp p.fg2)) ⟨0, 1, 2, 3⟩
    [⟨0, 2, 1, 3⟩, ⟨0, 3, 1, 2⟩, ⟨1, 2, 0, 3⟩, ⟨1, 3, 0, 2⟩, ⟨2, 3, 0, 1⟩]

/-- Glyph table keyed by the foreground pair (src/handler.rs lines 217-225);
the `_ => unreachable` arm is `none`. -/
def pairGlyph : Nat → Nat → Option Char
  | 0, 1 => some '▀'
  | 0, 2 => some '▌'
  | 0, 3 => some '▚'
  | 1, 2 => some '▞'
  | 1, 3 => some '▐'
  | 2, 3 => some '▄'
  | _, _ => none

/-- Glyph table keyed by the single index that became background
(src/handler.rs lines 233-239 and 248-254); the `unreachable` arm is
`none`. -/
def cornerGlyph : Nat → Option Char
  | 0 => some '▟'
  | 1 => some '▙'
  | 2 => some '▜'
  | 3 => some '▛'
  | _ => none

/-- One rendered terminal cell of the half-block mode: glyph plus
foreground and background color (still in source channel order, before the
final `Color::Rgb(c[2], c[1], c[0])` swizzle). -/
structure RenderedCell where
  glyph : Char
  fg : Color
  bg : Color
deriving DecidableEq

/-- The ColorfulHalfBlock per-block computation, src/handler.rs lines
189-256: choose the nearest pair, then decide between the pair branch and
the two fold-in branches.  `none` models reaching an `unreachable` arm. -/
def halfBlockCell (sp : Nat → Color) : Option RenderedCell :=
  let pc := choosePair sp
  let fg_color := color_average [sp pc.fg1, sp pc.fg2]
  let dist_remaining := color_dist (sp pc.other1) (sp pc.other2)
  let dist_1 := color_dist fg_color (sp pc.other1)
  let dist_2 := color_dist fg_color (sp pc.other2)
  if dist_remaining < dist_1 ∧ dist_remaining < dist_2 then
    (pairGlyph pc.fg1 pc.fg2).map fun ch =>
      ⟨ch, fg_color, color_average [sp pc.other1, sp pc.other2]⟩
  else if dist_1 < dist_2 then
    (cornerGlyph pc.other2).map fun ch =>
      ⟨ch, color_average [sp pc.fg1, sp pc.fg2, sp pc.other1], sp pc.other2⟩
  else
    (cornerGlyph pc.other1).map fun ch =>
      ⟨ch, color_average [sp pc.fg1, sp pc.fg2, sp pc.other2], sp pc.other1⟩

/-- Candidate foreground color of the half-block step (the `fg_color` let
binding before the branch decision). -/
def fgCandidate (sp : Nat → Color) : Color :=
  color_average [sp (choosePair sp).fg1, sp (choosePair sp).fg2]

/-- The `dist_remaining` quantity of the half-block step. -/
def distRemaining (sp : Nat → Color) : Nat :=
  color_dist (sp (choosePair sp).other1) (sp (choosePair sp).other2)

/-- The `dist_1` quantity of the half-block step. -/
def dist1 (sp : Nat → Color) : Nat :=
  color_dist (fgCandidate sp) (sp (choosePair sp).other1)

/-- The `dist_2` quantity of the half-block step. -/
def dist2 (sp : Nat → Color) : Nat :=
  color_dist (fgCandidate sp) (sp (choosePair sp).other2)

/-- All glyphs the half-block mode defines: the six pair glyphs and the
four corner glyphs. -/
def definedGlyphs : List Char :=
  ['▀', '▌', '▚', '▞', '▐', '▄', '▟', '▙', '▜', '▛']

/-- Terminal color as ratatui sees it: an RGB value or the `Reset`
default. -/
inductive TermColor
  | rgb (r g b : Nat)
  | reset
deriving DecidableEq

/-- The fixed glyph ramp `ASCII_CHARS` of src/app.rs line 24. -/
def ASCII_CHARS : List Char := ['█', '▓', '▒', '░', ' ']

/-- Ramp index of the GrayScaleThreshold branch, src/handler.rs lines
279-280.  The source computes
`(intensity as f32 * (ASCII_CHARS.len() - 1) as f32 / 255.0).round() as usize`;
for every intensity in 0..=255 the f32 computation agrees with exact
rational rounding (4 * i / 255 is never exactly half-way between two
integers, because 8 * i = 255 * odd has no solution, and the f32 rounding
error, below 2 ^ (-21), cannot bridge the remaining gap of at least 1/510),
and `f32::round` rounds half away from zero, which on nonnegative values
is the round-half-up `round` of Mathlib. -/
def grayScaleThresholdIndex (intensity : Nat) : Nat :=
  (round ((intensity : ℚ) * ((ASCII_CHARS.length - 1 : Nat) : ℚ) / 255)).toNat

/-- The GrayScaleThreshold branch of `convert_frame_into_ascii`,
src/handler.rs lines 277-287: ramp glyph, white foreground, default
background.  `none` models the panic of an out-of-range `ASCII_CHARS`
index (impossible for u8 intensities). -/
def grayScaleThresholdCell (intensity : Nat) : Option (Char × TermColor × TermColor) :=
  (ASCII_CHARS.get? (grayScaleThresholdIndex intensity)).map
    fun ch => (ch, TermColor.rgb 255 255 255, TermColor.reset)

/-- The Threshold branch of `convert_frame_into_ascii`, src/handler.rs
lines 288-295: solid block above intensity 150, space otherwise, white
foreground, default background. -/
def thresholdCell (intensity : Nat) : Char × TermColor × TermColor :=
  (if 150 < intensity then '█' else ' ', TermColor.rgb 255 255 255, TermColor.reset)

/-- The five rendering modes, `ImageConvertType` in src/handler.rs. -/
inductive ImageConvertType
  | ColorfulHalfBlock
  | Colorful
  | GrayScale
  | GrayScaleThreshold
  | Threshold
deriving DecidableEq

/-- Camera window scale, `CamWindowScale` in src/handler.rs
(`Full = 1`, `Small = 2`). -/
inductive CamWindowScale
  | Full
  | Small
deriving DecidableEq

/-- The numeric value of a scale, as used by the `as u16` cast. -/
def CamWindowScale.val : CamWindowScale → Nat
  | CamWindowScale.Full => 1
  | CamWindowScale.Small => 2

/-- Capture target size of one tick, src/handler.rs lines 364-379:
terminal size divided by the window scale (u16 truncating division),
then doubled in both axes for ColorfulHalfBlock. -/
def camSize (terminal_size : Nat × Nat) (scale : CamWindowScale)
    (t : ImageConvertType) : Nat × Nat :=
  let base := (terminal_size.1 / scale.val, terminal_size.2 / scale.val)
  match t with
  | ImageConvertType.ColorfulHalfBlock => (base.1 * 2, base.2 * 2)
  | _ => base

/-- Rust `as usize` on an i32 value (64-bit target): sign-extend and
reinterpret, i.e. reduce modulo 2 ^ 64. -/
def usizeCast (x : Int) : Nat := (x % (2 ^ 64 : Int)).toNat

/-- The camera set, `Camera` in src/handler.rs: probed device ids plus the
active index. -/
structure Camera where
  active_index : Option Int
  ids : List Int
deriving DecidableEq

/-- Construction in `Camera::default`, src/handler.rs lines 48-68: probe
device indices 0..=10 with the backend (`openable` abstracts which
`VideoCapture::new` calls report an opened device), keep the ids that
opened, and set `active_index` to `Some(0)` unconditionally. -/
def Camera.default (openable : Int → Bool) : Camera :=
  { active_index := some 0,
    ids := (((List.range 11).map fun n => (n : Int)).filter openable) }

/-- The i32 addition `*active_index + 1` cannot overflow while the index
is a valid position of `ids` and `ids` is shorter than 2 ^ 31, so plain
Int addition is exact there; `Camera::switch`, src/handler.rs lines
70-79. -/
def Camera.switch (c : Camera) : Camera :=
  match c.active_index with
  | none => c
  | some i =>
    if c.ids.length > usizeCast (i + 1) then
      { c with active_index := some (i + 1) }
    else
      { c with active_index := some 0 }

/-- Lookup in `Camera::get_cam_id`, src/handler.rs lines 81-87. -/
def Camera.get_cam_id (c : Camera) : Option Int :=
  match c.active_index with
  | some i => c.ids.get? (usizeCast i)
  | none => none

/-- Outcome of one iteration of the capture loop: resulting camera set,
whether a frame was published, and whether the loop exited. -/
structure TickResult where
  camera : Camera
  emitted : Bool
  terminated : Bool
deriving DecidableEq

/-- One iteration of the capture loop of `FrameHandler::run`,
src/handler.rs lines 346-429, with the backend outcomes as oracles:
`readOk` for `cam.read(..)`, `resizeOk` for `imgproc::resize`, `sendOk`
for `tx.send`.  `none` models a panic: the `.unwrap()` on
`get_cam_id()` and on the read result.  A resize error switches the
camera and continues; a send error breaks the loop. -/
def captureTick (cam : Camera) (readOk resizeOk sendOk : Bool) : Option TickResult :=
  match cam.get_cam_id with
  | none => none
  | some _ =>
    if !readOk then none
    else if !resizeOk then some ⟨cam.switch, false, false⟩
    else if sendOk then some ⟨cam, true, false⟩
    else some ⟨cam, false, true⟩

/-- Probe result with no available device. -/
def probeNone : Int → Bool := fun _ => false

/-! Helper lemmas. -/

/-- The ramp index evaluates to pure Nat arithmetic:
round(i * 4 / 255) = (i * 8 + 255) / 510 (no tie is possible, see
`grayScaleThresholdIndex`). -/
theorem grayScaleThresholdIndex_eq (i : Nat) :
    grayScaleThresholdIndex i = (i * 8 + 255) / 510 := by
  have hx : (i : ℚ) * ((ASCII_CHARS.length - 1 : Nat) : ℚ) / 255 + 1 / 2
      = ((i * 8 + 255 : Nat) : ℚ) / ((510 : Nat) : ℚ) := by
    have h4 : ((ASCII_CHARS.length - 1 : Nat) : ℚ) = 4 := by norm_num [ASCII_CHARS]
    rw [h4]
    push_cast
    ring
  rw [grayScaleThresholdIndex, round_eq, hx, Int.floor_toNat, Nat.floor_div_eq_div]

/-- Rust `min_by_key` returns either its accumulator or a list element. -/
theorem minByKey_mem {α : Type} (key : α → Nat) :
    ∀ (l : List α) (a : α), minByKey key a l = a ∨ minByKey key a l ∈ l
  | [], _ => Or.inl rfl
  | x :: xs, a => by
    simp only [minByKey]
    rcases minByKey_mem key xs (if key x < key a then x else a) with h | h
    · by_cases hk : key x < key a
      · rw [h, if_pos hk]
        exact Or.inr (List.mem_cons_self x xs)
      · rw [h, if_neg hk]
        exact Or.inl rfl
    · exact Or.inr (List.mem_cons_of_mem x h)

/-- The selected pair is always one of the six entries of the fixed pair
list. -/
theorem choosePair_mem (sp : Nat → Color) : choosePair sp ∈ pairList := by
  have h := minByKey_mem (fun p : PairChoice => color_dist (sp p.fg1) (sp p.fg2))
    [⟨0, 2, 1, 3⟩, ⟨0, 3, 1, 2⟩, ⟨1, 2, 0, 3⟩, ⟨1, 3, 0, 2⟩, ⟨2, 3, 0, 1⟩]
    ⟨0, 1, 2, 3⟩
  rcases h with h | h
  · rw [pairList, choosePair, h]
    exact List.mem_cons_self _ _
  · rw [pairList, choosePair]
    exact List.mem_cons_of_mem _ h

/-- Both glyph lookups succeed for every sub-pixel input, and the chosen
glyph is one of the ten defined glyphs. -/
theorem halfBlockCell_total (sp : Nat → Color) :
    ∃ cell, halfBlockCell sp = some cell ∧ cell.glyph ∈ definedGlyphs := by
  have h := choosePair_mem sp
  simp only [pairList, List.mem_cons, List.not_mem_nil, or_false] at h
  rcases h with h | h | h | h | h | h <;>
    · simp only [halfBlockCell, h]
      split
      · refine ⟨_, rfl, ?_⟩
        simp [definedGlyphs]
      · split
        · refine ⟨_, rfl, ?_⟩
          simp [definedGlyphs]
        · refine ⟨_, rfl, ?_⟩
          simp [definedGlyphs]

/-- The switch step on a camera with a valid active index m advances the
index to (m + 1) modulo the number of ids and leaves the ids unchanged. -/
theorem switch_valid (c : Camera) (m : Nat) (hidx : c.active_index = some (m : Int))
    (hm : m < c.ids.length) (hlen : c.ids.length < 2 ^ 31) :
    c.switch = { active_index := some (((m + 1) % c.ids.length : Nat) : Int), ids := c.ids } := by
  have hcast : usizeCast ((m : Int) + 1) = m + 1 := by
    unfold usizeCast
    omega
  simp only [Camera.switch, hidx, hcast]
  by_cases hlt : c.ids.length > m + 1
  · rw [if_pos hlt]
    have hmod : ((m + 1) % c.ids.length : Nat) = m + 1 := Nat.mod_eq_of_lt hlt
    rw [hmod]
    norm_cast
  · rw [if_neg hlt]
    have heq : m + 1 = c.ids.length := by omega
    have hmod : ((m + 1) % c.ids.length : Nat) = 0 := by
      rw [heq, Nat.mod_self]
    rw [hmod]
    norm_cast

/-- Iterating the switch step k times rotates a valid active index by k
modulo the number of ids. -/
theorem switch_iterate (c : Camera) (m : Nat) (hidx : c.active_index = some (m : Int))
    (hm : m < c.ids.length) (hlen : c.ids.length < 2 ^ 31) :
    ∀ k : Nat, (Camera.switch)^[k] c =
      { active_index := some (((m + k) % c.ids.length : Nat) : Int), ids := c.ids }
  | 0 => by
    obtain ⟨ai, ids⟩ := c
    simp only at hidx hm hlen
    rw [Function.iterate_zero_apply, hidx, Nat.add_zero, Nat.mod_eq_of_lt hm]
  | (k + 1) => by
    rw [Function.iterate_succ_apply', switch_iterate c m hidx hm hlen k]
    have hlenpos : 0 < c.ids.length := Nat.lt_of_le_of_lt (Nat.zero_le m) hm
    have hr : (m + k) % c.ids.length < c.ids.length := Nat.mod_lt _ hlenpos
    rw [switch_valid ⟨some (((m + k) % c.ids.length : Nat) : Int), c.ids⟩
      ((m + k) % c.ids.length) rfl hr hlen]
    rw [Nat.mod_add_mod]
    rfl

/-!
Claim theorems.
-/

/-- C3: for the 2x2 block with sub-pixel colors
(0,0,0), (10,10,10), (200,200,200), (210,210,210) at indices 0..3, the
internal distances of pairs (0,1) and (2,3) tie, the fixed enumeration
order selects (0,1) as the foreground pair, and the output cell is glyph
'▀' with foreground the channel-wise average of colors 0 and 1 and
background the channel-wise average of colors 2 and 3. -/
theorem C3_half_block_concrete :
    color_dist ⟨0, 0, 0⟩ ⟨10, 10, 10⟩ = color_dist ⟨200, 200, 200⟩ ⟨210, 210, 210⟩ ∧
    choosePair (mkSubpixels ⟨0, 0, 0⟩ ⟨10, 10, 10⟩ ⟨200, 200, 200⟩ ⟨210, 210, 210⟩)
      = ⟨0, 1, 2, 3⟩ ∧
    halfBlockCell (mkSubpixels ⟨0, 0, 0⟩ ⟨10, 10, 10⟩ ⟨200, 200, 200⟩ ⟨210, 210, 210⟩)
      = some ⟨'▀', color_average [⟨0, 0, 0⟩, ⟨10, 10, 10⟩],
          color_average [⟨200, 200, 200⟩, ⟨210, 210, 210⟩]⟩ := by
  decide

/-- C1 (as written, refuted): on the 2x2 block (0,0,0), (0,0,0), (10,0,0),
(0,10,0) the pair branch is not taken and dist_1 = dist_2, yet the code
folds other2 into the foreground and makes other1 (= color (10,0,0)) the
background, not the other way around as the claim states. -/
theorem C1_tie_counterexample :
    ¬ (distRemaining (mkSubpixels ⟨0, 0, 0⟩ ⟨0, 0, 0⟩ ⟨10, 0, 0⟩ ⟨0, 10, 0⟩)
        < dist1 (mkSubpixels ⟨0, 0, 0⟩ ⟨0, 0, 0⟩ ⟨10, 0, 0⟩ ⟨0, 10, 0⟩) ∧
       distRemaining (mkSubpixels ⟨0, 0, 0⟩ ⟨0, 0, 0⟩ ⟨10, 0, 0⟩ ⟨0, 10, 0⟩)
        < dist2 (mkSubpixels ⟨0, 0, 0⟩ ⟨0, 0, 0⟩ ⟨10, 0, 0⟩ ⟨0, 10, 0⟩)) ∧
    dist1 (mkSubpixels ⟨0, 0, 0⟩ ⟨0, 0, 0⟩ ⟨10, 0, 0⟩ ⟨0, 10, 0⟩)
      = dist2 (mkSubpixels ⟨0, 0, 0⟩ ⟨0, 0, 0⟩ ⟨10, 0, 0⟩ ⟨0, 10, 0⟩) ∧
    halfBlockCell (mkSubpixels ⟨0, 0, 0⟩ ⟨0, 0, 0⟩ ⟨10, 0, 0⟩ ⟨0, 10, 0⟩)
      = some ⟨'▜', ⟨0, 3, 0⟩, ⟨10, 0, 0⟩⟩ ∧
    halfBlockCell (mkSubpixels ⟨0, 0, 0⟩ ⟨0, 0, 0⟩ ⟨10, 0, 0⟩ ⟨0, 10, 0⟩)
      ≠ some ⟨'▛', ⟨3, 0, 0⟩, ⟨0, 10, 0⟩⟩ := by
  decide

/-- C1 (amended): when neither 'other' pixel wins outright and the two
fold-in distances are equal (dist_1 = dist_2), the algorithm takes the
dist_2-wins branch: other2 is folded into the foreground (foreground
becomes the average of the foreground pair plus other2) and other1 becomes
the background, with the glyph keyed by other1. -/
theorem C1_tie_folds_other2 (sp : Nat → Color)
    (hpair : ¬ (distRemaining sp < dist1 sp ∧ distRemaining sp < dist2 sp))
    (htie : dist1 sp = dist2 sp) :
    halfBlockCell sp = (cornerGlyph (choosePair sp).other1).map fun ch =>
      ⟨ch, color_average [sp (choosePair sp).fg1, sp (choosePair sp).fg2,
        sp (choosePair sp).other2], sp (choosePair sp).other1⟩ := by
  have h2 : ¬ dist1 sp < dist2 sp := by
    rw [htie]
    exact lt_irrefl _
  simp only [distRemaining, dist1, dist2, fgCandidate] at hpair h2
  simp only [halfBlockCell]
  rw [if_neg hpair, if_neg h2]

/-- C1 witness: the amended tie behavior at the concrete tie block. -/
theorem C1_tie_folds_other2_witness :
    halfBlockCell (mkSubpixels ⟨0, 0, 0⟩ ⟨0, 0, 0⟩ ⟨10, 0, 0⟩ ⟨0, 10, 0⟩)
      = (cornerGlyph
          (choosePair (mkSubpixels ⟨0, 0, 0⟩ ⟨0, 0, 0⟩ ⟨10, 0, 0⟩ ⟨0, 10, 0⟩)).other1).map
        fun ch =>
          ⟨ch, color_average
            [mkSubpixels ⟨0, 0, 0⟩ ⟨0, 0, 0⟩ ⟨10, 0, 0⟩ ⟨0, 10, 0⟩
              (choosePair (mkSubpixels ⟨0, 0, 0⟩ ⟨0, 0, 0⟩ ⟨10, 0, 0⟩ ⟨0, 10, 0⟩)).fg1,
             mkSubpixels ⟨0, 0, 0⟩ ⟨0, 0, 0⟩ ⟨10, 0, 0⟩ ⟨0, 10, 0⟩
              (choosePair (mkSubpixels ⟨0, 0, 0⟩ ⟨0, 0, 0⟩ ⟨10, 0, 0⟩ ⟨0, 10, 0⟩)).fg2,
             mkSubpixels ⟨0, 0, 0⟩ ⟨0, 0, 0⟩ ⟨10, 0, 0⟩ ⟨0, 10, 0⟩
              (choosePair (mkSubpixels ⟨0, 0, 0⟩ ⟨0, 0, 0⟩ ⟨10, 0, 0⟩ ⟨0, 10, 0⟩)).other2],
           mkSubpixels ⟨0, 0, 0⟩ ⟨0, 0, 0⟩ ⟨10, 0, 0⟩ ⟨0, 10, 0⟩
            (choosePair (mkSubpixels ⟨0, 0, 0⟩ ⟨0, 0, 0⟩ ⟨10, 0, 0⟩ ⟨0, 10, 0⟩)).other1⟩ :=
  C1_tie_folds_other2 _ (by decide) (by decide)

/-- C4 (as written, refuted): no set of eight glyphs contains every glyph
the half-block algorithm can emit, because ten pairwise-distinct glyphs
are each realized by some concrete 2x2 block. -/
theorem C4_eight_glyphs_counterexample :
    ¬ ∃ S : Finset Char, S.card = 8 ∧
      ∀ sp : Nat → Color, ∀ cell : RenderedCell,
        halfBlockCell sp = some cell → cell.glyph ∈ S := by
  rintro ⟨S, hcard, hall⟩
  have g0 : ('▀' : Char) ∈ S :=
    hall (mkSubpixels ⟨0, 0, 0⟩ ⟨0, 0, 0⟩ ⟨200, 0, 0⟩ ⟨201, 0, 0⟩)
      ⟨'▀', ⟨0, 0, 0⟩, ⟨200, 0, 0⟩⟩ (by decide)
  have g1 : ('▌' : Char) ∈ S :=
    hall (mkSubpixels ⟨0, 0, 0⟩ ⟨200, 0, 0⟩ ⟨0, 0, 0⟩ ⟨201, 0, 0⟩)
      ⟨'▌', ⟨0, 0, 0⟩, ⟨200, 0, 0⟩⟩ (by decide)
  have g2 : ('▚' : Char) ∈ S :=
    hall (mkSubpixels ⟨0, 0, 0⟩ ⟨200, 0, 0⟩ ⟨201, 0, 0⟩ ⟨0, 0, 0⟩)
      ⟨'▚', ⟨0, 0, 0⟩, ⟨200, 0, 0⟩⟩ (by decide)
  have g3 : ('▞' : Char) ∈ S :=
    hall (mkSubpixels ⟨200, 0, 0⟩ ⟨0, 0, 0⟩ ⟨0, 0, 0⟩ ⟨201, 0, 0⟩)
      ⟨'▞', ⟨0, 0, 0⟩, ⟨200, 0, 0⟩⟩ (by decide)
  have g4 : ('▐' : Char) ∈ S :=
    hall (mkSubpixels ⟨200, 0, 0⟩ ⟨0, 0, 0⟩ ⟨201, 0, 0⟩ ⟨0, 0, 0⟩)
      ⟨'▐', ⟨0, 0, 0⟩, ⟨200, 0, 0⟩⟩ (by decide)
  have g5 : ('▄' : Char) ∈ S :=
    hall (mkSubpixels ⟨200, 0, 0⟩ ⟨201, 0, 0⟩ ⟨0, 0, 0⟩ ⟨0, 0, 0⟩)
      ⟨'▄', ⟨0, 0, 0⟩, ⟨200, 0, 0⟩⟩ (by decide)
  have g6 : ('▟' : Char) ∈ S :=
    hall (mkSubpixels ⟨0, 0, 0⟩ ⟨110, 110, 110⟩ ⟨100, 100, 100⟩ ⟨100, 100, 100⟩)
      ⟨'▟', ⟨103, 103, 103⟩, ⟨0, 0, 0⟩⟩ (by decide)
  have g7 : ('▙' : Char) ∈ S :=
    hall (mkSubpixels ⟨110, 110, 110⟩ ⟨0, 0, 0⟩ ⟨100, 100, 100⟩ ⟨100, 100, 100⟩)
      ⟨'▙', ⟨103, 103, 103⟩, ⟨0, 0, 0⟩⟩ (by decide)
  have g8 : ('▜' : Char) ∈ S :=
    hall (mkSubpixels ⟨100, 100, 100⟩ ⟨100, 100, 100⟩ ⟨0, 0, 0⟩ ⟨110, 110, 110⟩)
      ⟨'▜', ⟨103, 103, 103⟩, ⟨0, 0, 0⟩⟩ (by decide)
  have g9 : ('▛' : Char) ∈ S :=
    hall (mkSubpixels ⟨100, 100, 100⟩ ⟨100, 100, 100⟩ ⟨110, 110, 110⟩ ⟨0, 0, 0⟩)
      ⟨'▛', ⟨103, 103, 103⟩, ⟨0, 0, 0⟩⟩ (by decide)
  have hsub : ({'▀', '▌', '▚', '▞', '▐', '▄', '▟', '▙', '▜', '▛'} : Finset Char) ⊆ S := by
    intro x hx
    simp only [Finset.mem_insert, Finset.mem_singleton] at hx
    rcases hx with rfl | rfl | rfl | rfl | rfl | rfl | rfl | rfl | rfl | rfl <;> assumption
  have hge := Finset.card_le_card hsub
  have hten : ({'▀', '▌', '▚', '▞', '▐', '▄', '▟', '▙', '▜', '▛'} : Finset Char).card = 10 := by
    decide
  rw [hcard, hten] at hge
  omega

/-- C4 (amended to the ten defined glyphs): for every choice of four
sub-pixel colors the chosen glyph is one of the ten glyphs the code
defines (six pair glyphs and four corner glyphs), and the computation is a
pure function, hence deterministic: identical input yields an identical
(glyph, foreground, background) cell. -/
theorem C4_glyph_membership (sp : Nat → Color) :
    (∃ cell, halfBlockCell sp = some cell ∧ cell.glyph ∈ definedGlyphs) ∧
    halfBlockCell sp = halfBlockCell sp :=
  ⟨halfBlockCell_total sp, rfl⟩

/-- C10: the minimum-distance selection over the fixed six-pair list always
returns one of the six table keys, the two single indices are always below
4, and consequently both glyph-lookup matches succeed (the unreachable
arms, modelled as `none`, are never taken). -/
theorem C10_half_block_lookups_total (sp : Nat → Color) :
    choosePair sp ∈ pairList ∧
    (choosePair sp).other1 < 4 ∧ (choosePair sp).other2 < 4 ∧
    ∃ cell, halfBlockCell sp = some cell := by
  have hmem := choosePair_mem sp
  obtain ⟨c, hc, -⟩ := halfBlockCell_total sp
  have hidx : (choosePair sp).other1 < 4 ∧ (choosePair sp).other2 < 4 := by
    have h := hmem
    simp only [pairList, List.mem_cons, List.not_mem_nil, or_false] at h
    rcases h with h | h | h | h | h | h <;> rw [h] <;> exact ⟨by decide, by decide⟩
  exact ⟨hmem, hidx.1, hidx.2, c, hc⟩

/-- C5: the GrayScaleThreshold ramp index is round(intensity * 4 / 255)
into the five-glyph ramp with white foreground; it is 0 ('█') at intensity
0, the last index (' ') at intensity 255, and non-decreasing in the
intensity. -/
theorem C5_grayscale_threshold_monotone :
    grayScaleThresholdIndex 0 = 0 ∧
    grayScaleThresholdCell 0 = some ('█', TermColor.rgb 255 255 255, TermColor.reset) ∧
    grayScaleThresholdIndex 255 = ASCII_CHARS.length - 1 ∧
    grayScaleThresholdCell 255 = some (' ', TermColor.rgb 255 255 255, TermColor.reset) ∧
    (∀ i j : Nat, i ≤ j → grayScaleThresholdIndex i ≤ grayScaleThresholdIndex j) := by
  refine ⟨?_, ?_, ?_, ?_, ?_⟩
  · rw [grayScaleThresholdIndex_eq]
  · rw [grayScaleThresholdCell, grayScaleThresholdIndex_eq]
    rfl
  · rw [grayScaleThresholdIndex_eq]
    rfl
  · rw [grayScaleThresholdCell, grayScaleThresholdIndex_eq]
    rfl
  · intro i j hij
    rw [grayScaleThresholdIndex_eq, grayScaleThresholdIndex_eq]
    exact Nat.div_le_div_right (by omega)

/-- C5 witness: monotonicity instantiated at intensities 3 and 200. -/
theorem C5_witness :
    grayScaleThresholdIndex 3 ≤ grayScaleThresholdIndex 200 :=
  C5_grayscale_threshold_monotone.2.2.2.2 3 200 (by decide)

/-- C9: Threshold mode is a strict step function at boundary 150: every
intensity up to 150 maps to the space glyph and every intensity from 151
up maps to the solid block, with white foreground in both cases. -/
theorem C9_threshold_step (i : Nat) :
    (i ≤ 150 → thresholdCell i = (' ', TermColor.rgb 255 255 255, TermColor.reset)) ∧
    (151 ≤ i → thresholdCell i = ('█', TermColor.rgb 255 255 255, TermColor.reset)) := by
  constructor
  · intro h
    rw [thresholdCell, if_neg (by omega)]
  · intro h
    rw [thresholdCell, if_pos (by omega)]

/-- C9 witness: the step at the boundary intensities 150 and 151. -/
theorem C9_witness :
    thresholdCell 150 = (' ', TermColor.rgb 255 255 255, TermColor.reset) ∧
    thresholdCell 151 = ('█', TermColor.rgb 255 255 255, TermColor.reset) :=
  ⟨(C9_threshold_step 150).1 (by decide), (C9_threshold_step 151).2 (by decide)⟩

/-- C6: the capture target equals the terminal size divided by the window
scale, doubled in both axes exactly for ColorfulHalfBlock; with scale
Small and display (100, 40) this is (100, 40) for ColorfulHalfBlock and
(50, 20) for every other mode. -/
theorem C6_cam_size :
    (∀ ts : Nat × Nat, ∀ sc : CamWindowScale, ∀ t : ImageConvertType,
      camSize ts sc t = if t = ImageConvertType.ColorfulHalfBlock
        then (ts.1 / sc.val * 2, ts.2 / sc.val * 2)
        else (ts.1 / sc.val, ts.2 / sc.val)) ∧
    camSize (100, 40) CamWindowScale.Small ImageConvertType.ColorfulHalfBlock = (100, 40) ∧
    (∀ t : ImageConvertType, t ≠ ImageConvertType.ColorfulHalfBlock →
      camSize (100, 40) CamWindowScale.Small t = (50, 20)) := by
  refine ⟨?_, by decide, ?_⟩
  · intro ts sc t
    cases t <;> simp [camSize]
  · intro t ht
    cases t
    · exact absurd rfl ht
    all_goals decide

/-- C6 witness: the non-half-block case instantiated at mode Colorful. -/
theorem C6_witness :
    camSize (100, 40) CamWindowScale.Small ImageConvertType.Colorful = (50, 20) :=
  C6_cam_size.2.2 ImageConvertType.Colorful (by decide)

/-- C7: with N ids and a valid active index, N switch steps return the
camera to its original state, and a single switch step again yields a
valid index (the length bound 2^31 reflects that a Rust Vec of i32 device
ids cannot have more elements than fit an i32-indexed probe; it rules out
the i32/usize wrap-around of the cast in the source). -/
theorem C7_switch_wraps (c : Camera) (i : Int)
    (hidx : c.active_index = some i) (h0 : 0 ≤ i) (hlt : i < (c.ids.length : Int))
    (hlen : c.ids.length < 2 ^ 31) :
    (Camera.switch)^[c.ids.length] c = c ∧
    ∃ j : Int, (c.switch).active_index = some j ∧ 0 ≤ j ∧ j < (c.ids.length : Int) := by
  have him : i = ((i.toNat : Nat) : Int) := (Int.toNat_of_nonneg h0).symm
  have hm : i.toNat < c.ids.length := by omega
  have hidx' : c.active_index = some ((i.toNat : Nat) : Int) := him ▸ hidx
  constructor
  · rw [switch_iterate c i.toNat hidx' hm hlen c.ids.length]
    have hmod : (i.toNat + c.ids.length) % c.ids.length = i.toNat := by
      rw [Nat.add_mod_right]
      exact Nat.mod_eq_of_lt hm
    rw [hmod]
    obtain ⟨ai, ids⟩ := c
    simp only at hidx'
    rw [hidx']
  · rw [switch_valid c i.toNat hidx' hm hlen]
    have hlenpos : 0 < c.ids.length := Nat.lt_of_le_of_lt (Nat.zero_le _) hm
    have hr : (i.toNat + 1) % c.ids.length < c.ids.length := Nat.mod_lt _ hlenpos
    exact ⟨_, rfl, by positivity, by exact_mod_cast hr⟩

/-- C7 witness: a two-camera set returns to its original state after two
switches, and one switch keeps the index valid. -/
theorem C7_witness :
    (Camera.switch)^[(⟨some 0, [5, 7]⟩ : Camera).ids.length] (⟨some 0, [5, 7]⟩ : Camera)
      = (⟨some 0, [5, 7]⟩ : Camera) ∧
    ∃ j : Int, ((⟨some 0, [5, 7]⟩ : Camera).switch).active_index = some j ∧
      0 ≤ j ∧ j < (((⟨some 0, [5, 7]⟩ : Camera).ids.length : Nat) : Int) :=
  C7_switch_wraps ⟨some 0, [5, 7]⟩ 0 rfl (by decide) (by decide) (by decide)

/-- C8: when the resize step fails on a tick that reached it, the camera
is switched exactly once, no frame is published, and the loop neither
panics nor terminates, regardless of whether a send would have
succeeded. -/
theorem C8_resize_failure_switches_once (cam : Camera) (id : Int)
    (hid : cam.get_cam_id = some id) (sendOk : Bool) :
    captureTick cam true false sendOk = some ⟨cam.switch, false, false⟩ := by
  unfold captureTick
  rw [hid]
  rfl

/-- C8 witness: a one-camera set with a failing resize. -/
theorem C8_witness :
    captureTick ⟨some 0, [3]⟩ true false true
      = some ⟨(⟨some 0, [3]⟩ : Camera).switch, false, false⟩ :=
  C8_resize_failure_switches_once ⟨some 0, [3]⟩ 3 (by decide) true

/-- C2 (as written, refuted): with a probe that finds zero devices, the
constructed camera still has active index Some 0 (not unset), and the
capture tick that consumes the empty camera set panics (the unwrap of
`get_cam_id`), modelled as `none`. -/
theorem C2_empty_probe_counterexample :
    (Camera.default probeNone).ids = [] ∧
    (Camera.default probeNone).active_index = some 0 ∧
    captureTick (Camera.default probeNone) true true true = none := by
  decide

/-- C2 (amended): if the probe finds zero devices the active index is
nevertheless Some 0, `get_cam_id` returns none, and every capture tick
panics on its unwrap: the no-camera state is fatal to the capture task,
not a degraded non-fatal state. -/
theorem C2_empty_probe_is_fatal (openable : Int → Bool)
    (h : (Camera.default openable).ids = []) :
    (Camera.default openable).active_index = some 0 ∧
    (Camera.default openable).get_cam_id = none ∧
    ∀ r rz s : Bool, captureTick (Camera.default openable) r rz s = none := by
  have hg : (Camera.default openable).get_cam_id = none := by
    show (Camera.default openable).ids.get? (usizeCast 0) = none
    rw [h]
    rfl
  refine ⟨rfl, hg, ?_⟩
  intro r rz s
  unfold captureTick
  rw [hg]

/-- C2 witness: the amended statement at the all-closed probe. -/
theorem C2_empty_probe_witness :
    (Camera.default probeNone).active_index = some 0 ∧
    (Camera.default probeNone).get_cam_id = none ∧
    captureTick (Camera.default probeNone) true true true = none :=
  ⟨(C2_empty_probe_is_fatal probeNone (by decide)).1,
   (C2_empty_probe_is_fatal probeNone (by decide)).2.1,
   (C2_empty_probe_is_fatal probeNone (by decide)).2.2 true true true⟩

end Tuicam
